import Mathlib

/-!
Verification development for the VR-GALLERY repository.

The layout builder and placement engine (src/gallery.ts, `buildGallery`) and the
movement/collision solver (src/controls.ts, `createControls`) are shallowly
embedded below.  Numeric values are modelled over `ℚ` (the code computes with
IEEE doubles on exact decimal constants; the spec's statements are
tolerance-based, so exact rational arithmetic is the intended real-number
model).  The pitch clamp, whose limit involves `π`, is modelled over an
arbitrary linear ordered field and instantiated at `ℝ`.
-/

namespace VRGallery

/-! ### Design constants (src/gallery.ts lines 23-30, src/controls.ts lines 16, 37) -/

def H : ℚ := 18/5              -- 3.6, wall/ceiling height
def WALL_T : ℚ := 11/50        -- 0.22, wall thickness
def DOOR_W : ℚ := 3            -- 3.0, doorway width
def WALL_GAP : ℚ := 1/5        -- 0.2, frame standoff from wall plane
def CAP_MARGIN : ℚ := 4/5      -- 0.80, margin from segment edges
def SPACING : ℚ := 18/5        -- 3.6, desired frame spacing
def FRAME_W : ℚ := 9/5         -- 1.8, frame width
def HALF_W : ℚ := FRAME_W * (1/2)

def playerRadius : ℚ := 7/20   -- 0.35, collision inflation radius

/-! ### Geometry types (src/types.d.ts, src/gallery.ts `WallSeg`) -/

/-- Axis-aligned wall collider on the X/Z plane (`RectXZ` in src/types.d.ts). -/
structure RectXZ where
  minX : ℚ
  maxX : ℚ
  minZ : ℚ
  maxZ : ℚ
deriving DecidableEq, Repr

/-- World bounds box (`Bounds` in src/types.d.ts). -/
structure Bounds where
  minX : ℚ
  maxX : ℚ
  minY : ℚ
  maxY : ℚ
  minZ : ℚ
  maxZ : ℚ
deriving DecidableEq, Repr

/-- A straight hangable wall segment (`WallSeg` in src/gallery.ts):
`X` is long along the X axis with fixed plane `z` and outward normal `nZ` along Z;
`Z` is long along the Z axis with fixed plane `x` and outward normal `nX` along X. -/
inductive WallSeg where
  | X (z x0 x1 : ℚ) (nZ : ℤ)
  | Z (x z0 z1 : ℚ) (nX : ℤ)
deriving DecidableEq, Repr

/-- Room footprint rectangle. -/
structure Rect where
  x0 : ℚ
  x1 : ℚ
  z0 : ℚ
  z1 : ℚ
deriving DecidableEq, Repr

/-! ### Wall emission (src/gallery.ts `addWallX` / `addWallZ`, lines 89-140)

Each plain (doorless) emission pushes exactly one collider and one hangable
segment; we model that one call as a pair.  A call with a doorway splits the
run around the doorway and recurses into the doorless case, which is inlined
here (the source recursion immediately takes the `leaveDoorAt === undefined`
branch). -/

/-- One doorless `addWallX` emission: the mesh/collider span `[x0,x1]` at plane
`z`, thickness `WALL_T` toward `normalToward`, and the hangable segment at the
offset plane `z + normalToward * WALL_T/2`. -/
def addWallXPlain (z x0 x1 : ℚ) (n : ℤ) : WallSeg × RectXZ :=
  let len := x1 - x0
  let cx := (x0 + x1) / 2
  (WallSeg.X (z + (n : ℚ) * (WALL_T/2)) x0 x1 n,
   ⟨cx - len/2, cx + len/2,
    z + (if n > 0 then 0 else -WALL_T),
    z + (if n > 0 then WALL_T else 0)⟩)

/-- `addWallX` with an optional doorway center (src/gallery.ts lines 89-115). -/
def addWallX (z x0 x1 : ℚ) (n : ℤ) (door : Option ℚ) : List (WallSeg × RectXZ) :=
  match door with
  | some c =>
      let d0 := c - DOOR_W/2
      let d1 := c + DOOR_W/2
      (if x0 + 1/100 < d0 then [addWallXPlain z x0 d0 n] else []) ++
      (if d1 + 1/100 < x1 then [addWallXPlain z d1 x1 n] else [])
  | none => [addWallXPlain z x0 x1 n]

/-- One doorless `addWallZ` emission. -/
def addWallZPlain (x z0 z1 : ℚ) (n : ℤ) : WallSeg × RectXZ :=
  let len := z1 - z0
  let cz := (z0 + z1) / 2
  (WallSeg.Z (x + (n : ℚ) * (WALL_T/2)) z0 z1 n,
   ⟨x + (if n > 0 then 0 else -WALL_T),
    x + (if n > 0 then WALL_T else 0),
    cz - len/2, cz + len/2⟩)

/-- `addWallZ` with an optional doorway center (src/gallery.ts lines 117-140). -/
def addWallZ (x z0 z1 : ℚ) (n : ℤ) (door : Option ℚ) : List (WallSeg × RectXZ) :=
  match door with
  | some c =>
      let d0 := c - DOOR_W/2
      let d1 := c + DOOR_W/2
      (if z0 + 1/100 < d0 then [addWallZPlain x z0 d0 n] else []) ++
      (if d1 + 1/100 < z1 then [addWallZPlain x d1 z1 n] else [])
  | none => [addWallZPlain x z0 z1 n]

/-! ### The concrete gallery build (src/gallery.ts lines 34-37 and 153-192) -/

def R_ATRIUM : Rect := ⟨-16, 16, -10, 10⟩
def R_NORTH : Rect := ⟨-14, 14, 10, 24⟩
def R_EAST : Rect := ⟨16, 30, -8, 8⟩
def R_WEST : Rect := ⟨-30, -16, -8, 8⟩

def MIN_X : ℚ := min (min R_ATRIUM.x0 R_NORTH.x0) (min R_EAST.x0 R_WEST.x0)
def MAX_X : ℚ := max (max R_ATRIUM.x1 R_NORTH.x1) (max R_EAST.x1 R_WEST.x1)
def MIN_Z : ℚ := min (min R_ATRIUM.z0 R_NORTH.z0) (min R_EAST.z0 R_WEST.z0)
def MAX_Z : ℚ := max (max R_ATRIUM.z1 R_NORTH.z1) (max R_EAST.z1 R_WEST.z1)

/-- All wall emissions of `buildGallery`, in source order (lines 153-192):
atrium outer walls and dividers, then North, East, West rooms. -/
def galleryWalls : List (WallSeg × RectXZ) :=
  addWallX R_ATRIUM.z0 R_ATRIUM.x0 R_ATRIUM.x1 1 (some 0) ++
  addWallX R_ATRIUM.z1 R_ATRIUM.x0 R_ATRIUM.x1 (-1) (some 0) ++
  addWallZ R_ATRIUM.x0 R_ATRIUM.z0 R_ATRIUM.z1 1 (some 0) ++
  addWallZ R_ATRIUM.x1 R_ATRIUM.z0 R_ATRIUM.z1 (-1) (some 0) ++
  addWallX ((R_ATRIUM.z0 + R_ATRIUM.z1)/2 - 2) (R_ATRIUM.x0 + 2) (R_ATRIUM.x1 - 2) 1 none ++
  addWallZ ((R_ATRIUM.x0 + R_ATRIUM.x1)/2 - 4) (R_ATRIUM.z0 + 2) (R_ATRIUM.z1 - 2) 1 none ++
  addWallX R_NORTH.z0 R_NORTH.x0 R_NORTH.x1 1 (some 0) ++
  addWallX R_NORTH.z1 R_NORTH.x0 R_NORTH.x1 (-1) none ++
  addWallZ R_NORTH.x0 R_NORTH.z0 R_NORTH.z1 1 none ++
  addWallZ R_NORTH.x1 R_NORTH.z0 R_NORTH.z1 (-1) none ++
  addWallX (R_NORTH.z0 + 4) (R_NORTH.x0 + 2) (R_NORTH.x1 - 6) 1 none ++
  addWallZ (R_NORTH.x1 - 6) (R_NORTH.z0 + 4) (R_NORTH.z1 - 2) (-1) none ++
  addWallZ R_EAST.x0 R_EAST.z0 R_EAST.z1 1 (some 0) ++
  addWallZ R_EAST.x1 R_EAST.z0 R_EAST.z1 (-1) none ++
  addWallX R_EAST.z0 R_EAST.x0 R_EAST.x1 1 none ++
  addWallX R_EAST.z1 R_EAST.x0 R_EAST.x1 (-1) none ++
  addWallX ((R_EAST.z0 + R_EAST.z1)/2) (R_EAST.x0 + 2) (R_EAST.x1 - 2) 1 none ++
  addWallZ R_WEST.x1 R_WEST.z0 R_WEST.z1 (-1) (some 0) ++
  addWallZ R_WEST.x0 R_WEST.z0 R_WEST.z1 1 none ++
  addWallX R_WEST.z0 R_WEST.x0 R_WEST.x1 1 none ++
  addWallX R_WEST.z1 R_WEST.x0 R_WEST.x1 (-1) none ++
  addWallZ ((R_WEST.x0 + R_WEST.x1)/2) (R_WEST.z0 + 2) (R_WEST.z1 - 2) 1 none ++
  addWallX ((R_WEST.z0 + R_WEST.z1)/2 - 2) (R_WEST.x0 + 2) (R_WEST.x1 - 2) 1 none

def gallerySegs : List WallSeg := galleryWalls.map Prod.fst

def galleryColliders : List RectXZ := galleryWalls.map Prod.snd

/-- World bounds returned by `buildGallery` (src/gallery.ts lines 301-308). -/
def galleryBounds : Bounds :=
  ⟨MIN_X + 3/5, MAX_X - 3/5, 9/10, H - 2/5, MIN_Z + 3/5, MAX_Z - 3/5⟩

/-- Suggested spawn point (src/gallery.ts line 310). -/
def gallerySpawn : ℚ × ℚ × ℚ :=
  ((R_ATRIUM.x0 + R_ATRIUM.x1)/2 - 6, 8/5, (R_ATRIUM.z0 + R_ATRIUM.z1)/2)

/-! ### Placement engine (src/gallery.ts lines 209-296)

The source keeps a mutable cursor `idx` into the copied artwork list `frames`
and appends `Frame` objects to the scene; we thread the cursor explicitly and
collect the placements.  The artwork record type is abstract (`α`): the engine
never inspects a record, it only consumes it. -/

/-- One hung artwork: the consumed record, world position and yaw (as a
rational multiple of `π`: the source sets `rotation.y` to `0`, `π`, `π/2` or
`-π/2`). -/
structure Placement (α : Type) where
  art : α
  px : ℚ
  py : ℚ
  pz : ℚ
  rotY : ℚ
deriving DecidableEq, Repr

variable {α : Type}

/-- Corner collision check for a slot on an X segment (src/gallery.ts lines
227-235): some perpendicular (`Z`) segment has its plane strictly within
`HALF_W + 0.05` of the candidate `x` and the candidate `z` inside its span
widened by `0.05`. -/
def hitWallX (segs : List WallSeg) (x z : ℚ) : Bool :=
  segs.any fun other =>
    match other with
    | WallSeg.Z ox oz0 oz1 _ =>
        decide (|ox - x| < HALF_W + 5/100 ∧ oz0 - 5/100 ≤ z ∧ z ≤ oz1 + 5/100)
    | _ => false

/-- Corner collision check for a slot on a Z segment (src/gallery.ts lines
262-269). -/
def hitWallZ (segs : List WallSeg) (z x : ℚ) : Bool :=
  segs.any fun other =>
    match other with
    | WallSeg.X oz ox0 ox1 _ =>
        decide (|oz - z| < HALF_W + 5/100 ∧ ox0 - 5/100 ≤ x ∧ x ≤ ox1 + 5/100)
    | _ => false

/-- Candidate slot count for a segment spanning `[lo, hi]`
(`Math.floor(usable / SPACING) + 1`). -/
def slotCount (lo hi : ℚ) : ℤ :=
  ⌊((hi - lo) - 2 * (CAP_MARGIN + HALF_W)) / SPACING⌋ + 1

/-- Interpolation parameter of slot `i`: `0.5` for a single slot, else
`i / (count - 1)`. -/
def slotT (count : ℤ) (i : ℕ) : ℚ :=
  if count = 1 then 1/2 else (i : ℚ) / ((count : ℚ) - 1)

/-- Along-axis coordinate of slot `i` on a segment spanning `[lo, hi]`. -/
def slotPos (lo hi : ℚ) (count : ℤ) (i : ℕ) : ℚ :=
  let s := lo + CAP_MARGIN + HALF_W
  let e := hi - CAP_MARGIN - HALF_W
  s + slotT count i * (e - s)

/-- The slot loop of `hangOnSegX` (src/gallery.ts lines 220-244):
`for (let i = 0; i < count && idx < frames.length; i++)`, modelled with fuel
`rem = count - i`.  A corner-rejected slot consumes nothing; an accepted slot
consumes `frames[idx]` and advances the cursor. -/
def hangXGo (allSegs : List WallSeg) (frames : List α) (z x0 x1 : ℚ) (nZ : ℤ)
    (count : ℤ) : ℕ → ℕ → ℕ → ℕ × List (Placement α)
  | 0, _, idx => (idx, [])
  | rem + 1, i, idx =>
    if h : idx < frames.length then
      let x := slotPos x0 x1 count i
      let zc := z + (if nZ > 0 then WALL_GAP else -WALL_GAP)
      if hitWallX allSegs x zc then
        hangXGo allSegs frames z x0 x1 nZ count rem (i + 1) idx
      else
        let p : Placement α :=
          ⟨frames.get ⟨idx, h⟩, x, 8/5, zc, if nZ > 0 then 0 else 1⟩
        let r := hangXGo allSegs frames z x0 x1 nZ count rem (i + 1) (idx + 1)
        (r.1, p :: r.2)
    else (idx, [])

/-- `hangOnSegX` (src/gallery.ts lines 212-245). -/
def hangOnSegX (allSegs : List WallSeg) (frames : List α) (z x0 x1 : ℚ) (nZ : ℤ)
    (idx : ℕ) : ℕ × List (Placement α) :=
  let usable := (x1 - x0) - 2 * (CAP_MARGIN + HALF_W)
  if usable ≤ 0 then (idx, [])
  else
    let count := slotCount x0 x1
    hangXGo allSegs frames z x0 x1 nZ count count.toNat 0 idx

/-- The slot loop of `hangOnSegZ` (src/gallery.ts lines 256-278). -/
def hangZGo (allSegs : List WallSeg) (frames : List α) (x z0 z1 : ℚ) (nX : ℤ)
    (count : ℤ) : ℕ → ℕ → ℕ → ℕ × List (Placement α)
  | 0, _, idx => (idx, [])
  | rem + 1, i, idx =>
    if h : idx < frames.length then
      let z := slotPos z0 z1 count i
      let xc := x + (if nX > 0 then WALL_GAP else -WALL_GAP)
      if hitWallZ allSegs z xc then
        hangZGo allSegs frames x z0 z1 nX count rem (i + 1) idx
      else
        let p : Placement α :=
          ⟨frames.get ⟨idx, h⟩, xc, 8/5, z, if nX > 0 then 1/2 else -(1/2)⟩
        let r := hangZGo allSegs frames x z0 z1 nX count rem (i + 1) (idx + 1)
        (r.1, p :: r.2)
    else (idx, [])

/-- `hangOnSegZ` (src/gallery.ts lines 248-279). -/
def hangOnSegZ (allSegs : List WallSeg) (frames : List α) (x z0 z1 : ℚ) (nX : ℤ)
    (idx : ℕ) : ℕ × List (Placement α) :=
  let usable := (z1 - z0) - 2 * (CAP_MARGIN + HALF_W)
  if usable ≤ 0 then (idx, [])
  else
    let count := slotCount z0 z1
    hangZGo allSegs frames x z0 z1 nX count count.toNat 0 idx

/-- Dispatch on segment orientation (src/gallery.ts line 295). -/
def hangSeg (allSegs : List WallSeg) (frames : List α) :
    WallSeg → ℕ → ℕ × List (Placement α)
  | WallSeg.X z x0 x1 nZ, idx => hangOnSegX allSegs frames z x0 x1 nZ idx
  | WallSeg.Z x z0 z1 nX, idx => hangOnSegZ allSegs frames x z0 z1 nX idx

/-- The outer placement loop (src/gallery.ts lines 293-296): walk the segments
in construction order, breaking as soon as the artwork list is exhausted. -/
def hangAll (allSegs : List WallSeg) (frames : List α) :
    List WallSeg → ℕ → ℕ × List (Placement α)
  | [], idx => (idx, [])
  | s :: rest, idx =>
    if frames.length ≤ idx then (idx, [])
    else
      let r1 := hangSeg allSegs frames s idx
      let r2 := hangAll allSegs frames rest r1.1
      (r2.1, r1.2 ++ r2.2)

/-- All placements of a full run over `segs` (corner checks consult the same
list), starting from cursor `0`. -/
def placedAll (segs : List WallSeg) (frames : List α) : List (Placement α) :=
  (hangAll segs frames segs 0).2

/-- Final cursor value of a full run. -/
def finalIdx (segs : List WallSeg) (frames : List α) : ℕ :=
  (hangAll segs frames segs 0).1

/-- Everything observable from one `buildGallery` run: the returned record
(spawn, bounds, colliders) plus the hangable segments and the placements added
to the scene. -/
structure LayoutOut (α : Type) where
  segs : List WallSeg
  colliders : List RectXZ
  bounds : Bounds
  spawn : ℚ × ℚ × ℚ
  placements : List (Placement α)
deriving DecidableEq, Repr

/-- The full `buildGallery` run as a function of the artwork list. -/
def buildGallery (arts : List α) : LayoutOut α :=
  ⟨gallerySegs, galleryColliders, galleryBounds, gallerySpawn,
   placedAll gallerySegs arts⟩

/-! ### Movement/collision solver (src/controls.ts)

The displacement vector is `(forward * fwd + right * str) * speed * dt`, a
function of yaw and held keys; the collision/clamp logic only sees the
resulting `(dx, dz)`, which we take as the input.  `pitch`/`yaw` integration is
modelled separately below. -/

/-- Vector position of the viewer. -/
structure Vec3 where
  x : ℚ
  y : ℚ
  z : ℚ
deriving DecidableEq, Repr

/-- `collides` (src/controls.ts lines 46-54): some collider, inflated by the
player radius on all four sides, strictly contains `(x, z)`. -/
def collides (cs : List RectXZ) (x z : ℚ) : Bool :=
  cs.any fun r =>
    decide (r.minX - playerRadius < x ∧ x < r.maxX + playerRadius ∧
            r.minZ - playerRadius < z ∧ z < r.maxZ + playerRadius)

/-- Per-axis sliding resolution (src/controls.ts lines 72-82): try the X
candidate against the current `z`, then the Z candidate against the (possibly
updated) `x`. -/
def moveStep (cs : List RectXZ) (x z dx dz : ℚ) : ℚ × ℚ :=
  let x1 := if collides cs (x + dx) z then x else x + dx
  let z1 := if collides cs x1 (z + dz) then z else z + dz
  (x1, z1)

/-- `clampBounds` (src/controls.ts lines 39-44): clamp all three axes into the
bounds; no-op when no bounds are configured. -/
def clampBounds : Option Bounds → Vec3 → Vec3
  | none, v => v
  | some b, v =>
      ⟨min b.maxX (max b.minX v.x),
       min b.maxY (max b.minY v.y),
       min b.maxZ (max b.minZ v.z)⟩

/-- One `update(dt)` tick (src/controls.ts lines 56-85): a no-op unless
pointer-lock is active; otherwise per-axis sliding followed by the bounds
clamp. -/
def update (isLocked : Bool) (b : Option Bounds) (cs : List RectXZ)
    (pos : Vec3) (dx dz : ℚ) : Vec3 :=
  if isLocked then
    let m := moveStep cs pos.x pos.z dx dz
    clampBounds b ⟨m.1, pos.y, m.2⟩
  else pos

/-! ### Pitch integration (src/controls.ts lines 23-30)

The mousemove handler is inert without pointer-lock; otherwise it integrates
the pointer delta and clamps pitch to `[-lim, lim]`.  The limit in the source
is `Math.PI/2 - 0.08`, so the fold is stated over an arbitrary linear ordered
field and the theorem instantiates it at `ℝ` with `lim = π/2 - 0.08`. -/

/-- `pitch = Math.max(-lim, Math.min(lim, pitch))`. -/
def pitchClamp {K : Type} [LinearOrderedField K] (lim p : K) : K :=
  max (-lim) (min lim p)

/-- One mousemove event: `(isLocked, movementY)`.  When locked,
`pitch -= movementY * sensitivity` followed by the clamp; otherwise the handler
returns before touching pitch. -/
def pitchStep {K : Type} [LinearOrderedField K] (lim sens : K) (p : K)
    (ev : Bool × K) : K :=
  if ev.1 then pitchClamp lim (p - ev.2 * sens) else p

/-- Pitch after a sequence of mousemove events, starting from the initial
`pitch = 0` (src/controls.ts line 17). -/
def pitchRun {K : Type} [LinearOrderedField K] (lim sens : K)
    (events : List (Bool × K)) : K :=
  events.foldl (pitchStep lim sens) 0

/-! ### Derived observation functions used only to state properties -/

/-- The spans `(a, b)` of the X-oriented segments of an emission list. -/
def spanXList (l : List (WallSeg × RectXZ)) : List (ℚ × ℚ) :=
  l.filterMap fun p =>
    match p.1 with
    | WallSeg.X _ a b _ => some (a, b)
    | _ => none

/-- The spans `(a, b)` of the Z-oriented segments of an emission list. -/
def spanZList (l : List (WallSeg × RectXZ)) : List (ℚ × ℚ) :=
  l.filterMap fun p =>
    match p.1 with
    | WallSeg.Z _ a b _ => some (a, b)
    | _ => none

/-- The sub-run spans left over after cutting a doorway centered at `c` out of
the run `[a, b]`, with the `0.01` degeneracy tolerance.  This is the span
content common to the `some` branches of `addWallX` and `addWallZ`. -/
def cutSpans (a b c : ℚ) : List (ℚ × ℚ) :=
  (if a + 1/100 < c - DOOR_W/2 then [(a, c - DOOR_W/2)] else []) ++
  (if c + DOOR_W/2 + 1/100 < b then [(c + DOOR_W/2, b)] else [])

/-- The accepted slots (position and yaw, `(px, pz, rotY)`) of the X slot
loop, independent of the artwork records: the loop visits the same candidate
slots and applies the same corner check whether or not records remain. -/
def acceptedXGo (allSegs : List WallSeg) (z x0 x1 : ℚ) (nZ : ℤ) (count : ℤ) :
    ℕ → ℕ → List (ℚ × ℚ × ℚ)
  | 0, _ => []
  | rem + 1, i =>
    let x := slotPos x0 x1 count i
    let zc := z + (if nZ > 0 then WALL_GAP else -WALL_GAP)
    if hitWallX allSegs x zc then acceptedXGo allSegs z x0 x1 nZ count rem (i + 1)
    else (x, zc, if nZ > 0 then 0 else 1) ::
      acceptedXGo allSegs z x0 x1 nZ count rem (i + 1)

/-- The accepted slots of the Z slot loop. -/
def acceptedZGo (allSegs : List WallSeg) (x z0 z1 : ℚ) (nX : ℤ) (count : ℤ) :
    ℕ → ℕ → List (ℚ × ℚ × ℚ)
  | 0, _ => []
  | rem + 1, i =>
    let z := slotPos z0 z1 count i
    let xc := x + (if nX > 0 then WALL_GAP else -WALL_GAP)
    if hitWallZ allSegs z xc then acceptedZGo allSegs x z0 z1 nX count rem (i + 1)
    else (xc, z, if nX > 0 then 1/2 else -(1/2)) ::
      acceptedZGo allSegs x z0 z1 nX count rem (i + 1)

/-- The accepted slots of one segment. -/
def acceptedSeg (allSegs : List WallSeg) : WallSeg → List (ℚ × ℚ × ℚ)
  | WallSeg.X z x0 x1 nZ =>
    if (x1 - x0) - 2 * (CAP_MARGIN + HALF_W) ≤ 0 then []
    else acceptedXGo allSegs z x0 x1 nZ (slotCount x0 x1) (slotCount x0 x1).toNat 0
  | WallSeg.Z x z0 z1 nX =>
    if (z1 - z0) - 2 * (CAP_MARGIN + HALF_W) ≤ 0 then []
    else acceptedZGo allSegs x z0 z1 nX (slotCount z0 z1) (slotCount z0 z1).toNat 0

/-- The accepted slots of a segment list, in traversal order. -/
def acceptedAll (allSegs : List WallSeg) : List WallSeg → List (ℚ × ℚ × ℚ)
  | [] => []
  | s :: rest => acceptedSeg allSegs s ++ acceptedAll allSegs rest

/-- Pair accepted slots with artwork records, in order, stopping at whichever
list runs out first. -/
def mkPlacements (slots : List (ℚ × ℚ × ℚ)) (recs : List α) : List (Placement α) :=
  (slots.zip recs).map fun sr => ⟨sr.2, sr.1.1, 8/5, sr.1.2.1, sr.1.2.2⟩

/-- The position is inside the world bounds on all three axes. -/
def inBounds (b : Bounds) (v : Vec3) : Prop :=
  b.minX ≤ v.x ∧ v.x ≤ b.maxX ∧ b.minY ≤ v.y ∧ v.y ≤ b.maxY ∧
    b.minZ ≤ v.z ∧ v.z ≤ b.maxZ

instance (b : Bounds) (v : Vec3) : Decidable (inBounds b v) :=
  inferInstanceAs (Decidable (_ ∧ _ ∧ _ ∧ _ ∧ _ ∧ _))

/-- The collider of one emission agrees with its segment: same span along the
long axis, wall-thickness extent across it, non-degenerate on both axes. -/
def colliderMatchesSeg (p : WallSeg × RectXZ) : Prop :=
  match p.1 with
  | WallSeg.X _ a b _ =>
      p.2.minX = a ∧ p.2.maxX = b ∧ p.2.maxZ - p.2.minZ = WALL_T ∧
        p.2.minX < p.2.maxX ∧ p.2.minZ < p.2.maxZ
  | WallSeg.Z _ a b _ =>
      p.2.minZ = a ∧ p.2.maxZ = b ∧ p.2.maxX - p.2.minX = WALL_T ∧
        p.2.minX < p.2.maxX ∧ p.2.minZ < p.2.maxZ

instance : (p : WallSeg × RectXZ) → Decidable (colliderMatchesSeg p)
  | (WallSeg.X _ _ _ _, _) => inferInstanceAs (Decidable (_ ∧ _ ∧ _ ∧ _ ∧ _))
  | (WallSeg.Z _ _ _ _, _) => inferInstanceAs (Decidable (_ ∧ _ ∧ _ ∧ _ ∧ _))

/-! ## Theorems -/

/-- C9: Layout determinism.  `buildGallery` is a pure function of its constants
(fixed in the model, as in the source) and the artwork list: two runs on
identical inputs produce identical wall-segment lists, collider lists, bounds,
spawn point and placements.  The source computes all of these from the design
constants, the room rectangles and the artwork list alone; it consults no
randomness source and no ambient state. -/
theorem layout_deterministic (a b : List α) (h : a = b) :
    buildGallery a = buildGallery b := by
  rw [h]

/-- Witness for `layout_deterministic` at a concrete input. -/
theorem layout_deterministic_witness :
    buildGallery ([] : List ℕ) = buildGallery [] :=
  layout_deterministic [] [] rfl

/-- C4: Per-axis sliding collision.  The X candidate is committed exactly when
no inflated collider contains `(x + dx, z)`; the Z candidate is then tested
against the (possibly updated) X coordinate; consequently a diagonal move
blocked on exactly one axis advances on exactly the other axis. -/
theorem per_axis_sliding (cs : List RectXZ) (x z dx dz : ℚ) :
    ((moveStep cs x z dx dz).1 = if collides cs (x + dx) z then x else x + dx)
    ∧ ((moveStep cs x z dx dz).2 =
        if collides cs (moveStep cs x z dx dz).1 (z + dz) then z else z + dz)
    ∧ (collides cs (x + dx) z = false → collides cs (x + dx) (z + dz) = true →
        moveStep cs x z dx dz = (x + dx, z))
    ∧ (collides cs (x + dx) z = true → collides cs x (z + dz) = false →
        moveStep cs x z dx dz = (x, z + dz)) := by
  refine ⟨rfl, rfl, ?_, ?_⟩
  · intro h1 h2
    simp [moveStep, h1, h2]
  · intro h1 h2
    simp [moveStep, h1, h2]

/-- Witness for `per_axis_sliding`: the spec's test scenario — a collider on
`[5,6] × [5,6]`, player radius `0.35`, approaching from `(4, 4)` with the
diagonal move `(+1, +1)`: only the X axis advances. -/
theorem per_axis_sliding_witness :
    moveStep [⟨5, 6, 5, 6⟩] 4 4 1 1 = (4 + 1, 4) :=
  (per_axis_sliding [⟨5, 6, 5, 6⟩] 4 4 1 1).2.2.1
    (by with_unfolding_all decide) (by with_unfolding_all decide)

/-- C5 fails as stated: when pointer-lock is inactive, `update` returns before
doing anything (src/controls.ts line 57), so a position set outside the bounds
by direct assignment is still outside the bounds after the next `update` call.
Concretely: bounds `[0,1]³`, position `(5,5,5)`, no movement. -/
theorem bounds_clamp_counterexample :
    update false (some ⟨0, 1, 0, 1, 0, 1⟩) [] ⟨5, 5, 5⟩ 0 0 = ⟨5, 5, 5⟩
    ∧ ¬ inBounds ⟨0, 1, 0, 1, 0, 1⟩
        (update false (some ⟨0, 1, 0, 1, 0, 1⟩) [] ⟨5, 5, 5⟩ 0 0) := by
  constructor
  · rfl
  · with_unfolding_all decide

/-- C5 as amended: on every tick with bounds configured in which the update
body runs (pointer-lock active), after collision resolution the position is
clamped into the world bounds on all three axes — in particular any position,
even one assigned outside the bounds, is inside them after the update,
regardless of movement input. -/
theorem bounds_clamp_every_tick (b : Bounds) (cs : List RectXZ) (pos : Vec3)
    (dx dz : ℚ) (hx : b.minX ≤ b.maxX) (hy : b.minY ≤ b.maxY)
    (hz : b.minZ ≤ b.maxZ) :
    inBounds b (update true (some b) cs pos dx dz) := by
  simp only [update, if_pos, clampBounds, inBounds]
  refine ⟨?_, ?_, ?_, ?_, ?_, ?_⟩
  · exact le_min hx (le_max_left _ _)
  · exact min_le_left _ _
  · exact le_min hy (le_max_left _ _)
  · exact min_le_left _ _
  · exact le_min hz (le_max_left _ _)
  · exact min_le_left _ _

/-- Witness for `bounds_clamp_every_tick`: the out-of-range position `(5,5,5)`
is inside the bounds `[0,1]³` after one locked update with no movement. -/
theorem bounds_clamp_every_tick_witness :
    inBounds ⟨0, 1, 0, 1, 0, 1⟩
      (update true (some ⟨0, 1, 0, 1, 0, 1⟩) [] ⟨5, 5, 5⟩ 0 0) :=
  bounds_clamp_every_tick ⟨0, 1, 0, 1, 0, 1⟩ [] ⟨5, 5, 5⟩ 0 0
    (by norm_num) (by norm_num) (by norm_num)

/-- C3: Corner-avoidance.  A candidate slot is rejected exactly when the
`hitWall` check fires, and the check fires iff some perpendicular wall segment
has its wall-plane coordinate strictly within `HALF_W + 0.05` of the
candidate's coordinate along that axis while the candidate's other coordinate
lies within that segment's span extended by `0.05` on each end.  (In
`hangXGo`/`hangZGo` a slot is skipped, consuming nothing, precisely when this
predicate is `true`.) -/
theorem corner_avoidance (segs : List WallSeg) (x z : ℚ) :
    (hitWallX segs x z = true ↔
      ∃ ox oz0 oz1 nX, WallSeg.Z ox oz0 oz1 nX ∈ segs ∧
        |ox - x| < HALF_W + 5/100 ∧ oz0 - 5/100 ≤ z ∧ z ≤ oz1 + 5/100)
    ∧ (hitWallZ segs z x = true ↔
      ∃ oz ox0 ox1 nZ, WallSeg.X oz ox0 ox1 nZ ∈ segs ∧
        |oz - z| < HALF_W + 5/100 ∧ ox0 - 5/100 ≤ x ∧ x ≤ ox1 + 5/100) := by
  constructor
  · rw [hitWallX, List.any_eq_true]
    constructor
    · rintro ⟨s, hs, hp⟩
      cases s with
      | X oz a b n => simp at hp
      | Z ox a b n =>
          simp only [decide_eq_true_eq] at hp
          exact ⟨ox, a, b, n, hs, hp.1, hp.2.1, hp.2.2⟩
    · rintro ⟨ox, oz0, oz1, nX, hmem, h1, h2, h3⟩
      refine ⟨WallSeg.Z ox oz0 oz1 nX, hmem, ?_⟩
      simp only [decide_eq_true_eq]
      exact ⟨h1, h2, h3⟩
  · rw [hitWallZ, List.any_eq_true]
    constructor
    · rintro ⟨s, hs, hp⟩
      cases s with
      | Z ox a b n => simp at hp
      | X oz a b n =>
          simp only [decide_eq_true_eq] at hp
          exact ⟨oz, a, b, n, hs, hp.1, hp.2.1, hp.2.2⟩
    · rintro ⟨oz, ox0, ox1, nZ, hmem, h1, h2, h3⟩
      refine ⟨WallSeg.X oz ox0 ox1 nZ, hmem, ?_⟩
      simp only [decide_eq_true_eq]
      exact ⟨h1, h2, h3⟩

/-- C10: Segment–collider lockstep.  Each plain emission produces exactly one
segment paired with one collider, so over the whole gallery the two lists have
equal length and correspond index-wise; a collider's span along the long axis
equals its segment's span exactly and its extent across the wall is the wall
thickness, placed on the side of the base plane that the outward normal points
to; and every collider actually emitted by the gallery build is non-degenerate.
-/
theorem segment_collider_lockstep :
    gallerySegs.length = galleryColliders.length
    ∧ (∀ z a b : ℚ, ∀ n : ℤ, a < b → n = 1 ∨ n = -1 →
        colliderMatchesSeg (addWallXPlain z a b n)
        ∧ (n = 1 → (addWallXPlain z a b n).2.minZ = z)
        ∧ (n = -1 → (addWallXPlain z a b n).2.maxZ = z))
    ∧ (∀ xw a b : ℚ, ∀ n : ℤ, a < b → n = 1 ∨ n = -1 →
        colliderMatchesSeg (addWallZPlain xw a b n)
        ∧ (n = 1 → (addWallZPlain xw a b n).2.minX = xw)
        ∧ (n = -1 → (addWallZPlain xw a b n).2.maxX = xw))
    ∧ (∀ p ∈ galleryWalls, colliderMatchesSeg p) := by
  refine ⟨?_, ?_, ?_, ?_⟩
  · simp [gallerySegs, galleryColliders]
  · intro z a b n hab hn
    rcases hn with rfl | rfl <;>
      · simp only [addWallXPlain, colliderMatchesSeg]
        norm_num [WALL_T]
        refine ⟨by ring, by ring, by linarith⟩
  · intro xw a b n hab hn
    rcases hn with rfl | rfl <;>
      · simp only [addWallZPlain, colliderMatchesSeg]
        norm_num [WALL_T]
        refine ⟨by ring, by ring, by linarith⟩
  · with_unfolding_all decide

/-- Witness for `segment_collider_lockstep` on a concrete plain emission. -/
theorem segment_collider_lockstep_witness :
    colliderMatchesSeg (addWallXPlain 0 0 2 1) :=
  (segment_collider_lockstep.2.1 0 0 2 1 (by norm_num) (Or.inl rfl)).1

/-! ### The placement run as a zip of accepted slots with records

`hangAll` both walks the segments and consumes records through one shared
cursor.  The lemmas below factor it: the accepted slots are independent of the
records, and the placements are exactly the accepted slots zipped with the
records in order.  All consumption-order facts (C2) and the surplus behavior
(C6) follow. -/

theorem mkPlacements_nil_right (slots : List (ℚ × ℚ × ℚ)) :
    mkPlacements slots ([] : List α) = [] := by
  simp [mkPlacements]

theorem length_mkPlacements (slots : List (ℚ × ℚ × ℚ)) (recs : List α) :
    (mkPlacements slots recs).length = min slots.length recs.length := by
  simp [mkPlacements]

theorem zip_take_self {β γ : Type} (A : List β) (L : List γ) :
    A.zip (L.take A.length) = A.zip L := by
  induction A generalizing L with
  | nil => simp
  | cons a A ih =>
      cases L with
      | nil => simp
      | cons b L => simp [ih]

theorem map_snd_zip_eq_take {β γ : Type} (A : List β) (L : List γ) :
    (A.zip L).map Prod.snd = L.take (A.zip L).length := by
  induction A generalizing L with
  | nil => simp
  | cons a A ih =>
      cases L with
      | nil => simp
      | cons b L => simp [ih]

theorem mkPlacements_take (slots : List (ℚ × ℚ × ℚ)) (recs : List α) :
    mkPlacements slots (recs.take slots.length) = mkPlacements slots recs := by
  rw [mkPlacements, mkPlacements, zip_take_self]

theorem mkPlacements_append (A B : List (ℚ × ℚ × ℚ)) (L : List α) :
    mkPlacements (A ++ B) L
      = mkPlacements A L ++ mkPlacements B (L.drop (min A.length L.length)) := by
  induction A generalizing L with
  | nil => simp [mkPlacements]
  | cons a A ih =>
      cases L with
      | nil => simp [mkPlacements]
      | cons b L =>
          have h := ih L
          simp only [mkPlacements] at h
          simp [mkPlacements, Nat.succ_min_succ, h]

theorem hangXGo_eq (allSegs : List WallSeg) (frames : List α) (z x0 x1 : ℚ)
    (nZ : ℤ) (count : ℤ) :
    ∀ (rem i idx : ℕ),
      hangXGo allSegs frames z x0 x1 nZ count rem i idx
        = (idx + (mkPlacements (acceptedXGo allSegs z x0 x1 nZ count rem i)
              (frames.drop idx)).length,
           mkPlacements (acceptedXGo allSegs z x0 x1 nZ count rem i)
              (frames.drop idx)) := by
  intro rem
  induction rem with
  | zero =>
      intro i idx
      simp [hangXGo, acceptedXGo, mkPlacements]
  | succ rem ih =>
      intro i idx
      simp only [hangXGo, acceptedXGo]
      by_cases h : idx < frames.length
      · rw [dif_pos h]
        by_cases hw : hitWallX allSegs (slotPos x0 x1 count i)
            (z + (if nZ > 0 then WALL_GAP else -WALL_GAP)) = true
        · rw [if_pos hw, if_pos hw]
          exact ih (i + 1) idx
        · rw [if_neg hw, if_neg hw]
          rw [ih (i + 1) (idx + 1)]
          rw [← List.getElem_cons_drop frames idx h]
          simp only [mkPlacements, List.zip_cons_cons, List.map_cons,
            List.length_cons, List.get_eq_getElem]
          exact Prod.ext (by omega) rfl
      · rw [dif_neg h]
        rw [List.drop_eq_nil_of_le (Nat.le_of_not_lt h)]
        simp [mkPlacements]

theorem hangZGo_eq (allSegs : List WallSeg) (frames : List α) (x z0 z1 : ℚ)
    (nX : ℤ) (count : ℤ) :
    ∀ (rem i idx : ℕ),
      hangZGo allSegs frames x z0 z1 nX count rem i idx
        = (idx + (mkPlacements (acceptedZGo allSegs x z0 z1 nX count rem i)
              (frames.drop idx)).length,
           mkPlacements (acceptedZGo allSegs x z0 z1 nX count rem i)
              (frames.drop idx)) := by
  intro rem
  induction rem with
  | zero =>
      intro i idx
      simp [hangZGo, acceptedZGo, mkPlacements]
  | succ rem ih =>
      intro i idx
      simp only [hangZGo, acceptedZGo]
      by_cases h : idx < frames.length
      · rw [dif_pos h]
        by_cases hw : hitWallZ allSegs (slotPos z0 z1 count i)
            (x + (if nX > 0 then WALL_GAP else -WALL_GAP)) = true
        · rw [if_pos hw, if_pos hw]
          exact ih (i + 1) idx
        · rw [if_neg hw, if_neg hw]
          rw [ih (i + 1) (idx + 1)]
          rw [← List.getElem_cons_drop frames idx h]
          simp only [mkPlacements, List.zip_cons_cons, List.map_cons,
            List.length_cons, List.get_eq_getElem]
          exact Prod.ext (by omega) rfl
      · rw [dif_neg h]
        rw [List.drop_eq_nil_of_le (Nat.le_of_not_lt h)]
        simp [mkPlacements]

theorem hangSeg_eq (allSegs : List WallSeg) (frames : List α) (s : WallSeg)
    (idx : ℕ) :
    hangSeg allSegs frames s idx
      = (idx + (mkPlacements (acceptedSeg allSegs s) (frames.drop idx)).length,
         mkPlacements (acceptedSeg allSegs s) (frames.drop idx)) := by
  cases s with
  | X z x0 x1 nZ =>
      simp only [hangSeg, hangOnSegX, acceptedSeg]
      by_cases hu : (x1 - x0) - 2 * (CAP_MARGIN + HALF_W) ≤ 0
      · rw [if_pos hu, if_pos hu]
        simp [mkPlacements]
      · rw [if_neg hu, if_neg hu]
        exact hangXGo_eq allSegs frames z x0 x1 nZ (slotCount x0 x1)
          (slotCount x0 x1).toNat 0 idx
  | Z x z0 z1 nX =>
      simp only [hangSeg, hangOnSegZ, acceptedSeg]
      by_cases hu : (z1 - z0) - 2 * (CAP_MARGIN + HALF_W) ≤ 0
      · rw [if_pos hu, if_pos hu]
        simp [mkPlacements]
      · rw [if_neg hu, if_neg hu]
        exact hangZGo_eq allSegs frames x z0 z1 nX (slotCount z0 z1)
          (slotCount z0 z1).toNat 0 idx

theorem hangAll_eq (allSegs : List WallSeg) (frames : List α) :
    ∀ (todo : List WallSeg) (idx : ℕ),
      hangAll allSegs frames todo idx
        = (idx + (mkPlacements (acceptedAll allSegs todo) (frames.drop idx)).length,
           mkPlacements (acceptedAll allSegs todo) (frames.drop idx)) := by
  intro todo
  induction todo with
  | nil =>
      intro idx
      simp [hangAll, acceptedAll, mkPlacements]
  | cons s rest ih =>
      intro idx
      simp only [hangAll, acceptedAll]
      by_cases h : frames.length ≤ idx
      · rw [if_pos h]
        rw [List.drop_eq_nil_of_le h]
        simp [mkPlacements]
      · rw [if_neg h]
        rw [hangSeg_eq, ih]
        rw [mkPlacements_append]
        have hlen : (mkPlacements (acceptedSeg allSegs s) (frames.drop idx)).length
            = min (acceptedSeg allSegs s).length (frames.drop idx).length :=
          length_mkPlacements _ _
        rw [List.drop_drop]
        refine Prod.ext ?_ ?_
        · simp only [List.length_append, length_mkPlacements, List.length_drop]
          omega
        · have harg : idx + (mkPlacements (acceptedSeg allSegs s)
              (frames.drop idx)).length
              = idx + min (acceptedSeg allSegs s).length (frames.drop idx).length := by
            rw [hlen]
          rw [harg]

theorem placedAll_eq (segs : List WallSeg) (frames : List α) :
    placedAll segs frames = mkPlacements (acceptedAll segs segs) frames := by
  have h := hangAll_eq segs frames segs 0
  simp only [placedAll, h, List.drop_zero]

theorem finalIdx_eq (segs : List WallSeg) (frames : List α) :
    finalIdx segs frames = (placedAll segs frames).length := by
  have h := hangAll_eq segs frames segs 0
  simp only [finalIdx, placedAll, h, List.drop_zero, Nat.zero_add]

/-- C2: Placement consumption order.  Over a full run: the number of placed
frames is at most the number of records; the `i`-th placed frame consumes
exactly the `i`-th record (the placed records are literally the input prefix —
never reordered, reused, or skipped); the final cursor equals the number of
placements, so a corner-rejected slot consumes nothing; and on any segment
list the outer loop places nothing once the cursor has reached the end of the
record list. -/
theorem placement_consumption (segs : List WallSeg) (frames : List α) :
    (placedAll segs frames).length ≤ frames.length
    ∧ (placedAll segs frames).map Placement.art
        = frames.take (placedAll segs frames).length
    ∧ finalIdx segs frames = (placedAll segs frames).length
    ∧ ∀ (todo : List WallSeg) (k : ℕ),
        hangAll segs frames todo (frames.length + k) = (frames.length + k, []) := by
  refine ⟨?_, ?_, finalIdx_eq segs frames, ?_⟩
  · rw [placedAll_eq, length_mkPlacements]
    exact min_le_right _ _
  · rw [placedAll_eq, mkPlacements]
    rw [List.map_map]
    have hmap : ((acceptedAll segs segs).zip frames).map
        (Placement.art ∘ fun sr : (ℚ × ℚ × ℚ) × α =>
          (⟨sr.2, sr.1.1, 8/5, sr.1.2.1, sr.1.2.2⟩ : Placement α))
        = ((acceptedAll segs segs).zip frames).map Prod.snd := rfl
    rw [hmap, map_snd_zip_eq_take]
    simp [mkPlacements]
  · intro todo k
    rw [hangAll_eq segs frames todo (frames.length + k),
      List.drop_eq_nil_of_le (by omega)]
    simp [mkPlacements]

set_option maxRecDepth 4000 in
/-- The concrete gallery layout accepts exactly 90 slots across all wall
segments (independently of the artwork records, by `acceptedAll`). -/
theorem galleryAccepted_length :
    (acceptedAll gallerySegs gallerySegs).length = 90 := by
  with_unfolding_all decide

/-- C6 fails as stated: no output of the placement run surfaces the unplaced
count.  The gallery accepts exactly 90 slots; running the build on 91 records
(surplus 1) and on 90 records (surplus 0) produces completely identical
outputs — segments, colliders, bounds, spawn and placements — so the surplus
count is discarded rather than surfaced. -/
theorem surplus_count_counterexample :
    buildGallery (List.range 91) = buildGallery (List.range 90)
    ∧ (List.range 91).length - (placedAll gallerySegs (List.range 91)).length = 1
    ∧ (List.range 90).length - (placedAll gallerySegs (List.range 90)).length = 0 := by
  have hACC := galleryAccepted_length
  have h91 : placedAll gallerySegs (List.range 91)
      = placedAll gallerySegs (List.range 90) := by
    rw [placedAll_eq, placedAll_eq,
      ← mkPlacements_take (acceptedAll gallerySegs gallerySegs) (List.range 91),
      hACC, List.take_range]
    norm_num
  refine ⟨?_, ?_, ?_⟩
  · simp only [buildGallery]
    rw [h91]
  · rw [placedAll_eq, length_mkPlacements, hACC]
    simp
  · rw [placedAll_eq, length_mkPlacements, hACC]
    simp

/-- C6 as amended: surplus artwork records are silently discarded, never
surfaced: the whole build output depends only on the first 90 records (the
accepted slot count of the layout), so runs differing only in surplus records
are indistinguishable from the outputs, and the number placed is
`min 90 (number of records)` — the unplaced count is recoverable only
externally as `records.length` minus that. -/
theorem surplus_silently_discarded (arts : List α) :
    buildGallery arts = buildGallery (arts.take 90)
    ∧ (placedAll gallerySegs arts).length = min 90 arts.length := by
  have hACC := galleryAccepted_length
  constructor
  · have h : placedAll gallerySegs arts = placedAll gallerySegs (arts.take 90) := by
      rw [placedAll_eq, placedAll_eq,
        ← mkPlacements_take (acceptedAll gallerySegs gallerySegs) arts, hACC]
    simp only [buildGallery]
    rw [h]
  · rw [placedAll_eq, length_mkPlacements, hACC]

/-- C7: Slot geometry.  A segment whose usable length
(length − 2×(margin + half frame width)) is ≤ 0 hosts zero frames; otherwise
the candidate count is `⌊usable / SPACING⌋ + 1`; with one slot the position is
the segment midpoint, and with ≥ 2 slots slot `i` sits at
`start + (i/(count−1))·(end−start)` for `start = lo + margin + halfWidth`,
`end = hi − margin − halfWidth`. -/
theorem slot_geometry (allSegs : List WallSeg) (frames : List α)
    (w lo hi : ℚ) (nZ nX : ℤ) (idx : ℕ) :
    ((hi - lo) - 2 * (CAP_MARGIN + HALF_W) ≤ 0 →
        hangOnSegX allSegs frames w lo hi nZ idx = (idx, [])
        ∧ hangOnSegZ allSegs frames w lo hi nX idx = (idx, []))
    ∧ slotCount lo hi = ⌊((hi - lo) - 2 * (CAP_MARGIN + HALF_W)) / SPACING⌋ + 1
    ∧ (slotCount lo hi = 1 →
        ∀ i : ℕ, slotPos lo hi (slotCount lo hi) i = (lo + hi) / 2)
    ∧ (2 ≤ slotCount lo hi → ∀ i : ℕ,
        slotPos lo hi (slotCount lo hi) i
          = (lo + CAP_MARGIN + HALF_W)
            + ((i : ℚ) / ((slotCount lo hi : ℚ) - 1))
              * ((hi - CAP_MARGIN - HALF_W) - (lo + CAP_MARGIN + HALF_W))) := by
  refine ⟨?_, rfl, ?_, ?_⟩
  · intro hu
    constructor
    · simp [hangOnSegX, hu]
    · simp [hangOnSegZ, hu]
  · intro hc i
    rw [hc]
    simp only [slotPos, slotT, if_pos]
    ring
  · intro hc i
    have hne : slotCount lo hi ≠ 1 := by omega
    simp only [slotPos, slotT, if_neg hne]

/-- Witness for `slot_geometry`: the segment `[0, 4]` has usable length
`0.6 > 0` and hosts a single slot, sitting at the midpoint `2`. -/
theorem slot_geometry_witness :
    slotPos 0 4 (slotCount 0 4) 0 = (0 + 4) / 2 :=
  (slot_geometry [] ([] : List ℕ) 0 0 4 1 1 0).2.2.1
    (by with_unfolding_all decide) 0

/-- The clamp keeps pitch within `[-lim, lim]` whenever `0 ≤ lim`. -/
theorem pitchClamp_abs_le {K : Type} [LinearOrderedField K] (lim p : K)
    (h : 0 ≤ lim) : |pitchClamp lim p| ≤ lim := by
  rw [abs_le, pitchClamp]
  constructor
  · exact le_max_left _ _
  · exact max_le (by linarith) (min_le_left _ _)

/-- C8: Pitch invariant.  Starting from the initial pitch `0`, after any
sequence of mousemove events (locked or not, any pointer deltas) the pitch
satisfies `-(π/2 - 0.08) ≤ pitch ≤ π/2 - 0.08` (stated via `|pitch|`;
`8/100 = 0.08`, `1/400 = 0.0025` is the sensitivity). -/
theorem pitch_invariant (events : List (Bool × ℝ)) :
    |pitchRun (Real.pi/2 - 8/100) (1/400) events| ≤ Real.pi/2 - 8/100 := by
  have hlim : (0 : ℝ) ≤ Real.pi/2 - 8/100 := by
    have := Real.pi_gt_three
    linarith
  suffices h : ∀ (evs : List (Bool × ℝ)) (p : ℝ),
      |p| ≤ Real.pi/2 - 8/100 →
      |evs.foldl (pitchStep (Real.pi/2 - 8/100) (1/400)) p| ≤ Real.pi/2 - 8/100 by
    exact h events 0 (by simpa using hlim)
  intro evs
  induction evs with
  | nil =>
      intro p hp
      simpa using hp
  | cons e evs ih =>
      intro p hp
      simp only [List.foldl_cons]
      apply ih
      rw [pitchStep]
      by_cases he : e.1 = true
      · rw [if_pos he]
        exact pitchClamp_abs_le _ _ hlim
      · rw [if_neg he]
        exact hp

/-! ### Doorway cutting (C1) -/

theorem spanXList_addWallX (w a b c : ℚ) (n : ℤ) :
    spanXList (addWallX w a b n (some c)) = cutSpans a b c := by
  simp only [addWallX, cutSpans]
  split_ifs <;> simp [spanXList, addWallXPlain]

theorem spanZList_addWallZ (w a b c : ℚ) (n : ℤ) :
    spanZList (addWallZ w a b n (some c)) = cutSpans a b c := by
  simp only [addWallZ, cutSpans]
  split_ifs <;> simp [spanZList, addWallZPlain]

theorem cutSpans_mem (a b c : ℚ) (s : ℚ × ℚ) :
    s ∈ cutSpans a b c ↔
      (s = (a, c - DOOR_W/2) ∧ a + 1/100 < c - DOOR_W/2)
      ∨ (s = (c + DOOR_W/2, b) ∧ c + DOOR_W/2 + 1/100 < b) := by
  rw [cutSpans]
  split_ifs <;> simp_all

theorem cutSpans_props (a b c : ℚ) (h0 : a ≤ c - DOOR_W/2)
    (h1 : c + DOOR_W/2 ≤ b) :
    ((a, c - DOOR_W/2) ∈ cutSpans a b c ↔ 1/100 < (c - DOOR_W/2) - a)
    ∧ ((c + DOOR_W/2, b) ∈ cutSpans a b c ↔ 1/100 < b - (c + DOOR_W/2))
    ∧ (∀ s ∈ cutSpans a b c, ∀ q : ℚ, s.1 ≤ q → q ≤ s.2 →
        ¬(c - DOOR_W/2 < q ∧ q < c + DOOR_W/2))
    ∧ (∀ s ∈ cutSpans a b c, ∀ q : ℚ, s.1 ≤ q → q ≤ s.2 → a ≤ q ∧ q ≤ b)
    ∧ (∀ q : ℚ, a ≤ q → q ≤ b →
        (c - DOOR_W/2 ≤ q ∧ q ≤ c + DOOR_W/2)
        ∨ (∃ s ∈ cutSpans a b c, s.1 ≤ q ∧ q ≤ s.2)
        ∨ q ≤ a + 1/100 ∨ b - 1/100 ≤ q) := by
  have hd : DOOR_W = 3 := rfl
  refine ⟨?_, ?_, ?_, ?_, ?_⟩
  · rw [cutSpans_mem]
    constructor
    · rintro (⟨-, hc⟩ | ⟨heq, -⟩)
      · linarith
      · exfalso
        have ha := congrArg Prod.fst heq
        simp only at ha
        rw [hd] at ha h0
        linarith
    · intro hc
      exact Or.inl ⟨rfl, by linarith⟩
  · rw [cutSpans_mem]
    constructor
    · rintro (⟨heq, -⟩ | ⟨-, hc⟩)
      · exfalso
        have ha := congrArg Prod.fst heq
        simp only at ha
        rw [hd] at ha h0
        linarith
      · linarith
    · intro hc
      exact Or.inr ⟨rfl, by linarith⟩
  · intro s hs q hq1 hq2 hcon
    rw [cutSpans_mem] at hs
    obtain ⟨hgt, hlt⟩ := hcon
    rcases hs with ⟨rfl, -⟩ | ⟨rfl, -⟩
    · simp only at hq1 hq2
      linarith
    · simp only at hq1 hq2
      linarith
  · intro s hs q hq1 hq2
    rw [cutSpans_mem] at hs
    rcases hs with ⟨rfl, -⟩ | ⟨rfl, -⟩
    · simp only at hq1 hq2
      rw [hd] at hq2 h1
      constructor <;> linarith
    · simp only at hq1 hq2
      rw [hd] at hq1 h0
      constructor <;> linarith
  · intro q hqa hqb
    by_cases hql : q < c - DOOR_W/2
    · by_cases he : a + 1/100 < c - DOOR_W/2
      · refine Or.inr (Or.inl ⟨(a, c - DOOR_W/2), ?_, hqa, le_of_lt hql⟩)
        rw [cutSpans_mem]
        exact Or.inl ⟨rfl, he⟩
      · exact Or.inr (Or.inr (Or.inl (by linarith)))
    · by_cases hqr : q ≤ c + DOOR_W/2
      · exact Or.inl ⟨le_of_not_lt hql, hqr⟩
      · by_cases he : c + DOOR_W/2 + 1/100 < b
        · refine Or.inr (Or.inl ⟨(c + DOOR_W/2, b), ?_,
            le_of_lt (lt_of_not_le hqr), hqb⟩)
          rw [cutSpans_mem]
          exact Or.inr ⟨rfl, he⟩
        · exact Or.inr (Or.inr (Or.inr (by linarith)))

/-- C1: Doorway cutting.  For a run `[a, b]` with a doorway of width `DOOR_W`
centered at `c` inside the run: the left sub-wall `[a, c - D/2]` is emitted iff
its length exceeds `0.01`, likewise the right sub-wall `[c + D/2, b]`; no
emitted segment meets the open doorway interval; every emitted segment lies
inside the run, and every point of the run is in the doorway gap, in an
emitted segment, or within `0.01` of an end of the run (the dropped
sub-walls); if both sub-runs are of length ≤ `0.01`, nothing is emitted.  Both
`addWallX` and `addWallZ` are covered. -/
theorem doorway_cutting (w a b c : ℚ) (n : ℤ)
    (h0 : a ≤ c - DOOR_W/2) (h1 : c + DOOR_W/2 ≤ b) :
    ((a, c - DOOR_W/2) ∈ spanXList (addWallX w a b n (some c)) ↔
        1/100 < (c - DOOR_W/2) - a)
    ∧ ((c + DOOR_W/2, b) ∈ spanXList (addWallX w a b n (some c)) ↔
        1/100 < b - (c + DOOR_W/2))
    ∧ (∀ s ∈ spanXList (addWallX w a b n (some c)), ∀ q : ℚ,
        s.1 ≤ q → q ≤ s.2 → ¬(c - DOOR_W/2 < q ∧ q < c + DOOR_W/2))
    ∧ (∀ s ∈ spanXList (addWallX w a b n (some c)), ∀ q : ℚ,
        s.1 ≤ q → q ≤ s.2 → a ≤ q ∧ q ≤ b)
    ∧ (∀ q : ℚ, a ≤ q → q ≤ b →
        (c - DOOR_W/2 ≤ q ∧ q ≤ c + DOOR_W/2)
        ∨ (∃ s ∈ spanXList (addWallX w a b n (some c)), s.1 ≤ q ∧ q ≤ s.2)
        ∨ q ≤ a + 1/100 ∨ b - 1/100 ≤ q)
    ∧ ((c - DOOR_W/2) - a ≤ 1/100 → b - (c + DOOR_W/2) ≤ 1/100 →
        addWallX w a b n (some c) = [])
    ∧ ((a, c - DOOR_W/2) ∈ spanZList (addWallZ w a b n (some c)) ↔
        1/100 < (c - DOOR_W/2) - a)
    ∧ ((c + DOOR_W/2, b) ∈ spanZList (addWallZ w a b n (some c)) ↔
        1/100 < b - (c + DOOR_W/2))
    ∧ (∀ s ∈ spanZList (addWallZ w a b n (some c)), ∀ q : ℚ,
        s.1 ≤ q → q ≤ s.2 → ¬(c - DOOR_W/2 < q ∧ q < c + DOOR_W/2))
    ∧ (∀ s ∈ spanZList (addWallZ w a b n (some c)), ∀ q : ℚ,
        s.1 ≤ q → q ≤ s.2 → a ≤ q ∧ q ≤ b)
    ∧ (∀ q : ℚ, a ≤ q → q ≤ b →
        (c - DOOR_W/2 ≤ q ∧ q ≤ c + DOOR_W/2)
        ∨ (∃ s ∈ spanZList (addWallZ w a b n (some c)), s.1 ≤ q ∧ q ≤ s.2)
        ∨ q ≤ a + 1/100 ∨ b - 1/100 ≤ q)
    ∧ ((c - DOOR_W/2) - a ≤ 1/100 → b - (c + DOOR_W/2) ≤ 1/100 →
        addWallZ w a b n (some c) = []) := by
  have hx := spanXList_addWallX w a b c n
  have hz := spanZList_addWallZ w a b c n
  have hp := cutSpans_props a b c h0 h1
  rw [hx, hz]
  refine ⟨hp.1, hp.2.1, hp.2.2.1, hp.2.2.2.1, hp.2.2.2.2, ?_,
    hp.1, hp.2.1, hp.2.2.1, hp.2.2.2.1, hp.2.2.2.2, ?_⟩
  · intro hsa hsb
    simp only [addWallX]
    rw [if_neg (by linarith), if_neg (by linarith)]
    rfl
  · intro hsa hsb
    simp only [addWallZ]
    rw [if_neg (by linarith), if_neg (by linarith)]
    rfl

/-- Witness for `doorway_cutting`: the atrium south wall, run `[-16, 16]` with
the doorway centered at `0` — the left sub-wall `[-16, -1.5]` is emitted. -/
theorem doorway_cutting_witness :
    ((-16 : ℚ), 0 - DOOR_W/2) ∈ spanXList (addWallX (-10) (-16) 16 1 (some 0)) :=
  (doorway_cutting (-10) (-16) 16 0 1 (by norm_num [DOOR_W])
    (by norm_num [DOOR_W])).1.mpr (by norm_num [DOOR_W])

end VRGallery
